import Mathlib

/-!
Verification of the conversational memory store of the CD2-BE backend.

The definitions below are a shallow embedding of the FAISS-backed memory
store (`api/real_faiss/faiss_service/crud.py`, `router.py`) and of the
HMAC request authentication (`api/core/security.py`).

Modelling conventions:
* the langchain `FAISS` object is a pair of an insertion-ordered document
  store (association list from message id to document) and a vector index
  (association list from message id to embedding vector);
* the embedding provider is an opaque parameter `embed : String → List Int`;
* similarity scores are carried through the code without any arithmetic, so
  they are modelled as integers ordered by `≤`;
* message ids are opaque strings; the UUIDs generated by
  `aadd_documents(ids=None)` are passed in as an explicit `newIds` list;
* timestamps are the ISO strings the code stores, ordered lexicographically
  exactly as Python compares them;
* Python truthiness of an optional string (`None` and `""` are falsy) is
  modelled by `strFalsy`;
* the HMAC-SHA256 digest and the canonical JSON serializer are opaque
  parameters; the base64 step of `generate_hmac` is modelled concretely.
-/

namespace FaissService

/-- Bitmask codec, from `crud.py` `_convert_indices_to_bitmask`: for each
index in 1..30 set bit `index - 1`; out-of-range indices are skipped
(the Python `if not indices: return 0` guard coincides with folding over
the empty list). -/
def _convert_indices_to_bitmask (indices : List Int) : Nat :=
  indices.foldl (fun (bitmask : Nat) (index : Int) =>
    if 1 ≤ index ∧ index ≤ 30 then bitmask ||| (1 <<< (index - 1).toNat) else bitmask) 0

/-- Bitmask codec, from `crud.py` `_convert_bitmask_to_indices`: scan bits
0..29 and collect the 1-indexed set positions (`(bitmask >> i) & 1` is
`Nat.testBit bitmask i`; the `bitmask == 0` early return yields the same
empty list). -/
def _convert_bitmask_to_indices (bitmask : Nat) : List Int :=
  (List.range 30).filterMap (fun i => if bitmask.testBit i then some ((i : Int) + 1) else none)

/-- The metadata dict attached to every stored message (`crud.py`
`add_faiss_documents`), as a typed record. A `none` optional field stands
for an absent / `None` dict entry. -/
structure Metadata where
  session_id : Int
  user_id : Int
  message_role : String
  time : String
  evaluation_bitmask : Nat
  recommendation_status : Option String
  target_message_id : Option String
deriving DecidableEq, Repr

/-- A langchain `Document`: page content plus metadata. -/
structure Document where
  page_content : String
  metadata : Metadata
deriving DecidableEq, Repr

/-- The in-memory FAISS store: the `InMemoryDocstore._dict` (insertion
ordered, unique keys) and the flat L2 index together with
`index_to_docstore_id`, modelled as id-keyed vectors. -/
structure FaissState where
  docstore : List (String × Document)
  index : List (String × List Int)
deriving DecidableEq, Repr

/-- A row of the relational `sessions` table (the fields the memory store
touches: primary key, owner, title, topic names). -/
structure OrmSession where
  session_id : Int
  user_id : Int
  title : String
  topics : List String
deriving DecidableEq, Repr

/-- `schema.DocumentInput`: one element of an append batch. -/
structure DocumentInput where
  page_content : String
  session_id : Int
  user_id : Int
  message_role : String
  target_message_id : Option String
  evaluation_indices : Option (List Int)
  recommendation_status : Option String
deriving DecidableEq, Repr

/-- `schema.ChatMessageOutput`: one rendered history message. -/
structure ChatMessageOutput where
  message_id : String
  page_content : String
  role : String
  timestamp : String
  user_id : Int
  evaluation_indices : Option (List Int)
  recommendation_status : Option String
deriving DecidableEq, Repr

/-- `schema.ConversationHistoryResponse`. -/
structure ConversationHistoryResponse where
  session_id : Int
  user_id : Int
  title : Option String
  topics : Option (List String)
  messages : List ChatMessageOutput
  total_messages : Nat
deriving DecidableEq, Repr

/-- The session search hit exactly as `search_faiss_session` constructs it
(message id, content, raw L2 score, and the decoded metadata fields). The
`schema.py` revision in the tree is an older one, so the record follows the
constructor call in `crud.py` lines 326-334. -/
structure SessionSearchResult where
  message_id : String
  page_content : String
  score : Int
  timestamp : String
  message_role : String
  evaluation_indices : Option (List Int)
  recommendation_status : Option String
deriving DecidableEq, Repr

/-- Modelled from the spec: the combined AI-worker update payload
(`schema.AIMessageUpdateRequest` is referenced by `router.py` but its
declaration is not in the `schema.py` revision in the tree); fields follow
the arguments `router.py` forwards to `crud.ai_update_document`. -/
structure AIMessageUpdateRequest where
  message_id : String
  new_page_content : Option String
  new_evaluation_indices : Option (List Int)
  new_recommendation_status : Option String
deriving DecidableEq, Repr

/-- Outcome of an HTTP handler: a success response or an HTTPException
with a status code. -/
inductive HttpOutcome where
  | ok (message_id : String)
  | error (status : Nat)
deriving DecidableEq, Repr

/-- First value bound to a string key in an association list (Python dict
lookup). -/
def dlookup {α : Type} : List (String × α) → String → Option α
  | [], _ => none
  | p :: rest, k => if p.1 == k then some p.2 else dlookup rest k

/-- Python dict assignment: replace in place if the key exists, otherwise
append. -/
def dictInsert {α : Type} (l : List (String × α)) (k : String) (v : α) : List (String × α) :=
  if l.any (fun p => p.1 == k) then l.map (fun p => if p.1 == k then (k, v) else p)
  else l ++ [(k, v)]

/-- Model of `FAISS.add_documents(docs, ids=ids)`: embed each document's
content, append the vectors to the index, and store the documents under
the given ids. -/
def faissAdd (embed : String → List Int) (st : FaissState)
    (pairs : List (String × Document)) : FaissState :=
  { docstore := pairs.foldl (fun d p => dictInsert d p.1 p.2) st.docstore,
    index := st.index ++ pairs.map (fun p => (p.1, embed p.2.page_content)) }

/-- Model of `FAISS.delete(ids)`: raises (here `none`) when an id is not
present in the store, otherwise removes the documents and their vectors. -/
def faissDelete (st : FaissState) (ids : List String) : Option FaissState :=
  if ids.all (fun i => st.docstore.any (fun p => p.1 == i)) then
    some { docstore := st.docstore.filter (fun p => !(ids.contains p.1)),
           index := st.index.filter (fun p => !(ids.contains p.1)) }
  else none

/-- Python truthiness of an optional string: `None` and `""` are falsy. -/
def strFalsy : Option String → Bool
  | none => true
  | some s => s == ""

/-- The generated placeholder title of a fresh session ("new conversation"
in Korean), compared against in `add_faiss_documents`. -/
def newConversationTitle : String := "새로운 대화"

/-- The initial `evaluation_bitmask` of an appended message: `0` unless a
truthy (non-empty) index list was supplied (`if doc_input.evaluation_indices:`). -/
def evalBitmaskOf (o : Option (List Int)) : Nat :=
  match o with
  | some l => if l.isEmpty then 0 else _convert_indices_to_bitmask l
  | none => 0

/-- The metadata dict built for one appended message (`add_faiss_documents`
loop body); `now` is `datetime.now(timezone.utc).isoformat()`. -/
def buildMetadata (d : DocumentInput) (now : String) : Metadata :=
  { session_id := d.session_id, user_id := d.user_id, message_role := d.message_role,
    time := now, evaluation_bitmask := evalBitmaskOf d.evaluation_indices,
    recommendation_status := d.recommendation_status,
    target_message_id := d.target_message_id }

/-- One iteration of the `add_faiss_documents` loop restricted to the
placeholder-title bookkeeping: while `first_user_message_content` is still
falsy, a user-role message records its content and looks the session up by
`session_id` alone; the looked-up session becomes `session_to_update` only
when its title is still the placeholder. The accumulator is the pair
`(first_user_message_content, session_to_update)`. -/
def scanStep (sql : List OrmSession) (acc : Option String × Option OrmSession)
    (d : DocumentInput) : Option String × Option OrmSession :=
  if d.message_role == "user" && strFalsy acc.1 then
    match sql.find? (fun s => s.session_id == d.session_id) with
    | some sessionObj =>
      (some d.page_content,
       if sessionObj.title == newConversationTitle then some sessionObj else acc.2)
    | none => (some d.page_content, acc.2)
  else acc

/-- `crud.add_faiss_documents`: build the documents, insert them under the
freshly generated ids, and opportunistically rename the session whose first
user message arrived while its title was still the placeholder. Returns
(added ids, new FAISS state, new relational state). -/
def add_faiss_documents (embed : String → List Int) (st : FaissState)
    (sql : List OrmSession) (documents : List DocumentInput)
    (newIds : List String) (now : String) :
    List String × FaissState × List OrmSession :=
  let scan := documents.foldl (scanStep sql) (none, none)
  let docs_to_add := documents.map (fun d => Document.mk d.page_content (buildMetadata d now))
  if docs_to_add.isEmpty then ([], st, sql)
  else
    let st' := faissAdd embed st (newIds.zip docs_to_add)
    let sql' :=
      match scan.2, scan.1 with
      | some sessionObj, some c =>
        if c == "" then sql
        else sql.map (fun t =>
          if t.session_id == sessionObj.session_id then { t with title := c.take 50 } else t)
      | _, _ => sql
    (newIds, st', sql')

/-- Replace the document stored under `message_id` (in-place metadata or
content mutation of the docstore entry). -/
def replaceDoc (st : FaissState) (message_id : String) (nd : Document) : FaissState :=
  { st with docstore := st.docstore.map (fun p => if p.1 == message_id then (p.1, nd) else p) }

/-- `crud.update_recommendation_status`: not-found yields `false`, otherwise
the stored message's `recommendation_status` metadata entry is set. -/
def update_recommendation_status (st : FaissState) (message_id : String)
    (status : String) : Bool × FaissState :=
  match dlookup st.docstore message_id with
  | none => (false, st)
  | some doc =>
    (true, replaceDoc st message_id
      { doc with metadata := { doc.metadata with recommendation_status := some status } })

/-- `crud.update_faiss_document`: not-found yields `false`; otherwise the
old vector and document are deleted and a re-embedded document with the new
content and the same id and metadata is inserted. -/
def update_faiss_document (embed : String → List Int) (st : FaissState)
    (message_id : String) (new_page_content : String) : Bool × FaissState :=
  match dlookup st.docstore message_id with
  | none => (false, st)
  | some original =>
    match faissDelete st [message_id] with
    | none => (false, st)
    | some st₁ =>
      (true, faissAdd embed st₁
        [(message_id, { page_content := new_page_content, metadata := original.metadata })])

/-- `crud.delete_faiss_document`: `FAISS.delete` raising on an unknown id is
caught and reported as `false` with the state untouched. -/
def delete_faiss_document (st : FaissState) (message_id : String) : Bool × FaissState :=
  match faissDelete st [message_id] with
  | some st' => (true, st')
  | none => (false, st)

/-- The closed role enumeration of `schema.ChatMessageOutput.role`. -/
def validRoles : List String := ["user", "optimize", "report", "hitl_user", "hitl_ai"]

/-- Does a stored document belong to the requested session and user
(`md.get("session_id") == session_id and md.get("user_id") == user_id`)? -/
def historyMatch (session_id user_id : Int) (d : Document) : Bool :=
  d.metadata.session_id == session_id && d.metadata.user_id == user_id

/-- Render one `(timestamp, doc_id, doc)` triple into a
`ChatMessageOutput` (`get_conversation_history_by_session` output loop):
unrecognized roles fall back to `"user"`, a zero bitmask decodes to `None`,
a non-zero one to its index list. -/
def renderTuple (t : String × String × Document) : ChatMessageOutput :=
  { message_id := t.2.1,
    page_content := t.2.2.page_content,
    role := if validRoles.contains t.2.2.metadata.message_role
            then t.2.2.metadata.message_role else "user",
    timestamp := t.1,
    user_id := t.2.2.metadata.user_id,
    evaluation_indices :=
      if t.2.2.metadata.evaluation_bitmask == 0 then none
      else some (_convert_bitmask_to_indices t.2.2.metadata.evaluation_bitmask),
    recommendation_status := t.2.2.metadata.recommendation_status }

/-- Python's `messages_with_details.sort(key=lambda x: x[0])` compares the
timestamps only. -/
def histLe (a b : String × String × Document) : Prop := a.1 ≤ b.1

instance histLeDecidable : DecidableRel histLe :=
  fun a b => inferInstanceAs (Decidable (a.1 ≤ b.1))

instance histLeTotal : IsTotal (String × String × Document) histLe :=
  ⟨fun a b => le_total a.1 b.1⟩

instance histLeTrans : IsTrans (String × String × Document) histLe :=
  ⟨fun _ _ _ h₁ h₂ => le_trans h₁ h₂⟩

/-- `crud.get_conversation_history_by_session`: join the session row (keyed
by session id AND owner), scan the docstore for matching messages, sort by
timestamp ascending, and render. -/
def get_conversation_history_by_session (st : FaissState) (sql : List OrmSession)
    (session_id user_id : Int) : ConversationHistoryResponse :=
  let sessionOrm := sql.find? (fun s => s.session_id == session_id && s.user_id == user_id)
  let title := sessionOrm.map (fun s => s.title)
  let topics :=
    match sessionOrm with
    | some s => if s.topics.isEmpty then none else some (s.topics.filter (fun t => !(t == "")))
    | none => none
  let tuples := st.docstore.filterMap (fun p =>
    if historyMatch session_id user_id p.2 then some (p.2.metadata.time, p.1, p.2) else none)
  let messages := (List.insertionSort histLe tuples).map renderTuple
  { session_id := session_id, user_id := user_id, title := title, topics := topics,
    messages := messages, total_messages := messages.length }

/-- The linear scan of `search_faiss_session` that recovers the docstore id
of a search hit: the first stored entry with the same content and metadata
whose id has not been used yet (a matching but already-seen id does not
stop the scan). -/
def searchFindId (docstore : List (String × Document)) (d : Document)
    (seen : List String) : Option String :=
  (docstore.find? (fun p =>
    p.2.page_content == d.page_content && p.2.metadata == d.metadata
      && !(seen.contains p.1))).map (fun p => p.1)

/-- Build one `SessionSearchResult` from a recovered id and a scored
candidate (`crud.py` lines 326-334). -/
def mkSearchResult (i : String) (d : Document) (score : Int) : SessionSearchResult :=
  { message_id := i, page_content := d.page_content, score := score,
    timestamp := d.metadata.time, message_role := d.metadata.message_role,
    evaluation_indices :=
      if d.metadata.evaluation_bitmask == 0 then none
      else some (_convert_bitmask_to_indices d.metadata.evaluation_bitmask),
    recommendation_status := d.metadata.recommendation_status }

/-- One iteration of the `search_faiss_session` candidate loop: a candidate
matching the requested session and user whose id can be recovered and was
not seen yet is appended to the results and its id to `seen_doc_ids`. -/
def searchStep (docstore : List (String × Document)) (session_id user_id : Int)
    (d : Document) (score : Int) (results : List SessionSearchResult) (seen : List String) :
    List SessionSearchResult × List String :=
  if d.metadata.session_id == session_id && d.metadata.user_id == user_id then
    match searchFindId docstore d seen with
    | some i => (results ++ [mkSearchResult i d score], seen ++ [i])
    | none => (results, seen)
  else (results, seen)

/-- The candidate loop of `search_faiss_session`: keep candidates matching
the requested session and user, recover their ids, deduplicate through the
`seen_doc_ids` set, and stop as soon as `k` results are collected. -/
def searchGo (docstore : List (String × Document)) (session_id user_id : Int) (k : Nat) :
    List (Document × Int) → List SessionSearchResult → List String → List SessionSearchResult
  | [], results, _ => results
  | (d, score) :: rest, results, seen =>
    let step := searchStep docstore session_id user_id d score results seen
    if k ≤ step.1.length then step.1
    else searchGo docstore session_id user_id k rest step.1 step.2

/-- `crud.search_faiss_session`: over-fetch `max(k*5, 20)` nearest
candidates from the vector index (modelled by the opaque `f`, which returns
candidates in ascending L2 distance order), then filter, deduplicate and
truncate to `k`. -/
def search_faiss_session (f : String → Nat → List (Document × Int)) (st : FaissState)
    (session_id user_id : Int) (query : String) (k : Nat) : List SessionSearchResult :=
  (searchGo st.docstore session_id user_id k (f query (max (k * 5) 20)) [] []).take k

/-- The `ai_update_document` metadata patch for the evaluation indices:
`if new_evaluation_indices is not None`, re-encode them. -/
def aiPatchEval (md : Metadata) (ei : Option (List Int)) : Metadata :=
  match ei with
  | some l => { md with evaluation_bitmask := _convert_indices_to_bitmask l }
  | none => md

/-- The `ai_update_document` metadata patch for the recommendation status:
`"none"` clears the tri-state flag, anything else is stored. -/
def aiPatchRec (md : Metadata) (rs : Option String) : Metadata :=
  match rs with
  | some s => { md with recommendation_status := if s == "none" then none else some s }
  | none => md

/-- `crud.ai_update_document`: not-found yields `false`; otherwise the
metadata dict is patched in place (evaluation indices re-encoded, `"none"`
clearing the recommendation), and a changed content triggers
delete-and-reinsert with a recomputed embedding. -/
def ai_update_document (embed : String → List Int) (st : FaissState) (message_id : String)
    (new_page_content : Option String) (new_evaluation_indices : Option (List Int))
    (new_recommendation_status : Option String) : Bool × FaissState :=
  match dlookup st.docstore message_id with
  | none => (false, st)
  | some doc =>
    match new_page_content with
    | some c =>
      if !(doc.page_content == c) then
        match faissDelete st [message_id] with
        | some st₁ =>
          (true, faissAdd embed st₁ [(message_id,
            { page_content := c,
              metadata := aiPatchRec (aiPatchEval doc.metadata new_evaluation_indices)
                new_recommendation_status })])
        | none => (false, st)
      else
        (true, replaceDoc st message_id
          { doc with
            metadata := aiPatchRec (aiPatchEval doc.metadata new_evaluation_indices)
              new_recommendation_status })
    | none =>
      (true, replaceDoc st message_id
        { doc with
          metadata := aiPatchRec (aiPatchEval doc.metadata new_evaluation_indices)
            new_recommendation_status })

/-- The standard base64 alphabet (RFC 4648), as used by `base64.b64encode`. -/
def base64Alphabet : List Char :=
  "ABCDEFGHIJKLMNOPQRSTUVWXYZabcdefghijklmnopqrstuvwxyz0123456789+/".toList

/-- Character of the base64 alphabet at a sextet value. -/
def b64Char (n : Nat) : Char := base64Alphabet.getD n '='

/-- Base64 encoding of a byte sequence, three bytes to four characters,
with `=` padding. -/
def base64EncodeList : List Nat → List Char
  | b0 :: b1 :: b2 :: rest =>
    b64Char (b0 / 4) :: b64Char ((b0 % 4) * 16 + b1 / 16) ::
      b64Char ((b1 % 16) * 4 + b2 / 64) :: b64Char (b2 % 64) :: base64EncodeList rest
  | [b0, b1] => [b64Char (b0 / 4), b64Char ((b0 % 4) * 16 + b1 / 16), b64Char ((b1 % 16) * 4), '=']
  | [b0] => [b64Char (b0 / 4), b64Char ((b0 % 4) * 16), '=', '=']
  | [] => []

/-- `base64.b64encode(...).decode()` over a byte sequence. -/
def base64Encode (bytes : List Nat) : String := String.mk (base64EncodeList bytes)

/-- Python `secret or settings.AI_SERVER_SHARED_SECRET` (an empty explicit
secret falls through to the configured one). -/
def pickSecret (secret fallback : Option String) : Option String :=
  match secret with
  | some s => if s == "" then fallback else some s
  | none => fallback

/-- `security.generate_hmac`: base64-encoded HMAC-SHA256 digest of `data`
keyed by the resolved secret; a missing or empty secret raises (`none`).
The digest itself is the opaque parameter `hmacSha256 key data`. -/
def generate_hmac (hmacSha256 : String → String → List Nat) (configured : Option String)
    (data : String) (secret : Option String) : Option String :=
  match pickSecret secret configured with
  | none => none
  | some sk => if sk == "" then none else some (base64Encode (hmacSha256 sk data))

/-- `security.verify_hmac_signature`: an empty signature header is refused
outright; a configuration error is caught and reported as `false`;
otherwise the received signature is compared (constant-time in the source,
plain equality semantically) against the expected one. -/
def verify_hmac_signature (hmacSha256 : String → String → List Nat)
    (configured : Option String) (data received_signature : String)
    (secret : Option String) : Bool :=
  if received_signature == "" then false
  else
    match generate_hmac hmacSha256 configured data secret with
    | none => false
    | some expected => expected == received_signature

/-- The `/ai-update` handler (`router.ai_update_message`): reject when the
shared secret is not configured; serialize the payload with the canonical
sorted-key compact-separator JSON serializer (the opaque `serialize`);
reject with 403 on HMAC mismatch BEFORE touching the store; otherwise run
`ai_update_document`. Returns the HTTP outcome and the resulting store. -/
def ai_update_message (hmacSha256 : String → String → List Nat)
    (serialize : AIMessageUpdateRequest → String) (sharedSecret : Option String)
    (embed : String → List Int) (st : FaissState) (request : AIMessageUpdateRequest)
    (x_signature : String) : HttpOutcome × FaissState :=
  match sharedSecret with
  | none => (HttpOutcome.error 500, st)
  | some sk =>
    if sk == "" then (HttpOutcome.error 500, st)
    else
      let payload := serialize request
      if !(verify_hmac_signature hmacSha256 (some sk) payload x_signature none) then
        (HttpOutcome.error 403, st)
      else
        let r := ai_update_document embed st request.message_id request.new_page_content
          request.new_evaluation_indices request.new_recommendation_status
        if r.1 then (HttpOutcome.ok request.message_id, r.2) else (HttpOutcome.error 500, r.2)

/-- Sorted deduplication, the Python `sorted(set(xs))` the round-trip
property of the spec compares against. -/
def sorted_unique (xs : List Int) : List Int :=
  List.insertionSort (· ≤ ·) xs.dedup

/-- Every `evaluation_bitmask` in the store fits in 30 bits. -/
def BitmasksOK (st : FaissState) : Prop :=
  ∀ p ∈ st.docstore, p.2.metadata.evaluation_bitmask < 2 ^ 30

instance bitmasksOKDecidable (st : FaissState) : Decidable (BitmasksOK st) :=
  inferInstanceAs (Decidable (∀ p ∈ st.docstore, p.2.metadata.evaluation_bitmask < 2 ^ 30))

/-- A deterministic stand-in embedding used by the concrete examples. -/
def exEmbed : String → List Int := fun s => [(s.length : Int)]

/-- A concrete two-message store used by the concrete examples. -/
def exState : FaissState :=
  ⟨[("m1", ⟨"old", ⟨1, 7, "user", "t0", 0, none, none⟩⟩),
    ("m2", ⟨"other", ⟨1, 7, "user", "t1", 0, none, none⟩⟩)],
   [("m1", [3]), ("m2", [5])]⟩

/-- A concrete index answer used by the concrete examples: both stored
documents of `exState`, in ascending-distance order. -/
def exSearchCands : String → Nat → List (Document × Int) := fun _ _ =>
  [(⟨"old", ⟨1, 7, "user", "t0", 0, none, none⟩⟩, 3),
   (⟨"other", ⟨1, 7, "user", "t1", 0, none, none⟩⟩, 5)]

/-- A concrete stand-in HMAC-SHA256 digest (32 zero bytes) used by the
concrete examples. -/
def exHmac : String → String → List Nat := fun _ _ => List.replicate 32 0

/-- A concrete stand-in canonical JSON serializer used by the concrete
examples. -/
def exSerialize : AIMessageUpdateRequest → String := fun r => r.message_id

/-- A concrete AI update payload used by the concrete examples. -/
def exAiReq : AIMessageUpdateRequest := ⟨"m1", none, some [2], none⟩

/-- A relational state with one fresh (placeholder-titled) session owned by
user 7, used by the concrete examples. -/
def exSqlC9 : List OrmSession := [⟨1, 7, newConversationTitle, []⟩]

/-- A relational state with one fresh (placeholder-titled) session owned by
user 2, used by the concrete examples. -/
def exSqlC10 : List OrmSession := [⟨1, 2, newConversationTitle, []⟩]

/-- A user-role append input with empty content (session 1, user 7). -/
def exDocEmpty : DocumentInput := ⟨"", 1, 7, "user", none, none, none⟩

/-- A user-role append input with non-empty content (session 1, user 7). -/
def exDocHello : DocumentInput := ⟨"hello there", 1, 7, "user", none, none, none⟩

lemma testBit_encode_foldl (xs : List Int) (b j : Nat) :
    Nat.testBit (xs.foldl (fun (bitmask : Nat) (index : Int) =>
      if 1 ≤ index ∧ index ≤ 30 then bitmask ||| (1 <<< (index - 1).toNat) else bitmask) b) j
    = (Nat.testBit b j || xs.any (fun i => decide ((1 ≤ i ∧ i ≤ 30) ∧ (i - 1).toNat = j))) := by
  induction xs generalizing b with
  | nil => simp
  | cons i t ih =>
    simp only [List.foldl_cons, List.any_cons]
    rw [ih]
    by_cases h : 1 ≤ i ∧ i ≤ 30
    · rw [if_pos h, Nat.one_shiftLeft, Nat.testBit_or, Nat.testBit_two_pow]
      simp [h, Bool.or_assoc, eq_comm]
    · rw [if_neg h]
      simp [h]

lemma encode_testBit (xs : List Int) (j : Nat) :
    (_convert_indices_to_bitmask xs).testBit j = true
      ↔ ∃ i ∈ xs, (1 ≤ i ∧ i ≤ 30) ∧ (i - 1).toNat = j := by
  unfold _convert_indices_to_bitmask
  rw [testBit_encode_foldl]
  simp

lemma encode_lt_two_pow (xs : List Int) : _convert_indices_to_bitmask xs < 2 ^ 30 := by
  apply Nat.lt_pow_two_of_testBit
  intro j hj
  by_contra hbit
  rw [Bool.not_eq_false] at hbit
  obtain ⟨i, _, hvalid, hji⟩ := (encode_testBit xs j).1 hbit
  have h29 : (i - 1).toNat ≤ 29 := Int.toNat_le.mpr (by omega)
  omega

lemma decode_mem (b : Nat) (x : Int) :
    x ∈ _convert_bitmask_to_indices b ↔ ∃ j, j < 30 ∧ b.testBit j = true ∧ x = (j : Int) + 1 := by
  unfold _convert_bitmask_to_indices
  simp only [List.mem_filterMap, List.mem_range]
  constructor
  · rintro ⟨j, hj, hx⟩
    by_cases hb : b.testBit j
    · rw [if_pos hb] at hx
      exact ⟨j, hj, hb, (Option.some_inj.1 hx).symm⟩
    · rw [if_neg hb] at hx
      exact absurd hx (by simp)
  · rintro ⟨j, hj, hb, hx⟩
    exact ⟨j, hj, by rw [if_pos hb, hx]⟩

lemma decode_sorted_lt (b : Nat) : List.Sorted (· < ·) (_convert_bitmask_to_indices b) := by
  unfold _convert_bitmask_to_indices
  rw [List.Sorted, List.pairwise_filterMap]
  apply List.Pairwise.imp ?_ (List.pairwise_lt_range 30)
  intro a a' haa' x hx y hy
  by_cases hb : b.testBit a <;> by_cases hb' : b.testBit a' <;>
    simp [hb, hb'] at hx hy
  rw [← hx, ← hy]
  exact_mod_cast Nat.succ_lt_succ haa'

lemma decode_nodup (b : Nat) : (_convert_bitmask_to_indices b).Nodup :=
  (decode_sorted_lt b).imp ne_of_lt

lemma decode_sorted_le (b : Nat) : List.Sorted (· ≤ ·) (_convert_bitmask_to_indices b) :=
  (decode_sorted_lt b).imp le_of_lt

lemma mem_sorted_unique (xs : List Int) (a : Int) : a ∈ sorted_unique xs ↔ a ∈ xs :=
  ((List.perm_insertionSort _ _).mem_iff).trans List.mem_dedup

lemma sorted_unique_nodup (xs : List Int) : (sorted_unique xs).Nodup :=
  ((List.perm_insertionSort _ _).symm.nodup) (List.nodup_dedup xs)

lemma sorted_unique_sorted (xs : List Int) : List.Sorted (· ≤ ·) (sorted_unique xs) :=
  List.sorted_insertionSort _ _

lemma mem_decode_encode (xs : List Int) (h : ∀ x ∈ xs, 1 ≤ x ∧ x ≤ 30) (a : Int) :
    a ∈ _convert_bitmask_to_indices (_convert_indices_to_bitmask xs) ↔ a ∈ xs := by
  rw [decode_mem]
  constructor
  · rintro ⟨j, hj30, hbit, hx⟩
    obtain ⟨i, hmem, hvalid, hji⟩ := (encode_testBit xs j).1 hbit
    have : ((i - 1).toNat : Int) = i - 1 := Int.toNat_of_nonneg (by omega)
    have : a = i := by omega
    rwa [this]
  · intro hmem
    have hvalid := h a hmem
    refine ⟨(a - 1).toNat, ?_, ?_, ?_⟩
    · have : (a - 1).toNat ≤ 29 := Int.toNat_le.mpr (by omega)
      omega
    · exact (encode_testBit xs _).2 ⟨a, hmem, hvalid, rfl⟩
    · have : ((a - 1).toNat : Int) = a - 1 := Int.toNat_of_nonneg (by omega)
      omega

/-- Claim C1: for every list of integers all lying in 1..30, decoding the
encoding returns the sorted set of its elements
(`bitmask_to_indices(indices_to_bitmask(xs)) == sorted(unique(xs))`), and
bitmask `0` decodes to the empty list (so the empty list round-trips to the
empty list). -/
theorem C1_bitmask_roundtrip_sorted_unique (xs : List Int)
    (h : ∀ x ∈ xs, 1 ≤ x ∧ x ≤ 30) :
    _convert_bitmask_to_indices (_convert_indices_to_bitmask xs) = sorted_unique xs
    ∧ _convert_bitmask_to_indices 0 = [] := by
  refine ⟨?_, by decide⟩
  apply List.eq_of_perm_of_sorted (r := (· ≤ ·))
  · rw [List.perm_ext_iff_of_nodup (decode_nodup _) (sorted_unique_nodup xs)]
    intro a
    rw [mem_decode_encode xs h a, mem_sorted_unique]
  · exact decode_sorted_le _
  · exact sorted_unique_sorted xs

theorem C1_bitmask_roundtrip_witness :
    (∀ x ∈ ([17, 3, 1, 3, 30] : List Int), 1 ≤ x ∧ x ≤ 30)
    ∧ _convert_bitmask_to_indices (_convert_indices_to_bitmask [17, 3, 1, 3, 30])
        = sorted_unique [17, 3, 1, 3, 30] :=
  ⟨by decide, (C1_bitmask_roundtrip_sorted_unique [17, 3, 1, 3, 30] (by decide)).1⟩

lemma dlookup_mem {α : Type} {l : List (String × α)} {k : String} {v : α}
    (h : dlookup l k = some v) : (k, v) ∈ l := by
  induction l with
  | nil => exact absurd h (by simp [dlookup])
  | cons p rest ih =>
    rw [dlookup] at h
    by_cases hp : p.1 == k
    · rw [if_pos hp] at h
      have : p = (k, v) := by
        have h1 : p.1 = k := by simpa using hp
        have h2 : p.2 = v := Option.some_inj.1 h
        cases p
        simp_all
      rw [← this]
      exact List.mem_cons_self p rest
    · rw [if_neg hp] at h
      exact List.mem_cons_of_mem p (ih h)

lemma mem_dictInsert {α : Type} {l : List (String × α)} {k : String} {v : α} {q : String × α}
    (hq : q ∈ dictInsert l k v) : q ∈ l ∨ q = (k, v) := by
  unfold dictInsert at hq
  split at hq
  · obtain ⟨p, hp, he⟩ := List.mem_map.1 hq
    by_cases hk : p.1 == k
    · rw [if_pos hk] at he
      exact Or.inr he.symm
    · rw [if_neg hk] at he
      exact Or.inl (he ▸ hp)
  · rcases List.mem_append.1 hq with h | h
    · exact Or.inl h
    · exact Or.inr (by simpa using h)

lemma mem_foldl_dictInsert {α : Type} (pairs : List (String × α)) (l : List (String × α))
    {q : String × α} (hq : q ∈ pairs.foldl (fun d p => dictInsert d p.1 p.2) l) :
    q ∈ l ∨ q ∈ pairs := by
  induction pairs generalizing l with
  | nil => exact Or.inl hq
  | cons p rest ih =>
    rw [List.foldl_cons] at hq
    rcases ih _ hq with h | h
    · rcases mem_dictInsert h with h' | h'
      · exact Or.inl h'
      · exact Or.inr (by rw [h']; exact List.mem_cons_self _ _)
    · exact Or.inr (List.mem_cons_of_mem p h)

lemma evalBitmaskOf_lt (o : Option (List Int)) : evalBitmaskOf o < 2 ^ 30 := by
  cases o with
  | none => norm_num [evalBitmaskOf]
  | some l =>
    by_cases h : l.isEmpty
    · norm_num [evalBitmaskOf, h]
    · simpa [evalBitmaskOf, h] using encode_lt_two_pow l

lemma bitmasksOK_add (embed : String → List Int) (st : FaissState) (sql : List OrmSession)
    (docs : List DocumentInput) (ids : List String) (now : String) (hok : BitmasksOK st) :
    BitmasksOK (add_faiss_documents embed st sql docs ids now).2.1 := by
  unfold add_faiss_documents
  by_cases he : (docs.map (fun d => Document.mk d.page_content (buildMetadata d now))).isEmpty
  · simpa [he] using hok
  · simp only [he, Bool.false_eq_true, if_false]
    intro q hq
    rcases mem_foldl_dictInsert _ _ hq with h | h
    · exact hok q h
    · obtain ⟨_, hdoc⟩ := List.of_mem_zip h
      obtain ⟨d, _, hd⟩ := List.mem_map.1 hdoc
      rw [← hd]
      exact evalBitmaskOf_lt d.evaluation_indices

lemma mem_replaceDoc {st : FaissState} {mid : String} {nd : Document} {q : String × Document}
    (hq : q ∈ (replaceDoc st mid nd).docstore) : q ∈ st.docstore ∨ q.2 = nd := by
  obtain ⟨p, hp, he⟩ := List.mem_map.1 hq
  by_cases hk : p.1 == mid
  · rw [if_pos hk] at he
    exact Or.inr (by rw [← he])
  · rw [if_neg hk] at he
    exact Or.inl (he ▸ hp)

lemma aiPatchEval_bitmask_lt {md : Metadata} (ei : Option (List Int))
    (h : md.evaluation_bitmask < 2 ^ 30) :
    (aiPatchEval md ei).evaluation_bitmask < 2 ^ 30 := by
  cases ei with
  | none => exact h
  | some l => exact encode_lt_two_pow l

lemma aiPatchRec_bitmask (md : Metadata) (rs : Option String) :
    (aiPatchRec md rs).evaluation_bitmask = md.evaluation_bitmask := by
  cases rs with
  | none => rfl
  | some s => rfl

lemma bitmasksOK_replaceDoc {st : FaissState} {mid : String} {nd : Document}
    (hok : BitmasksOK st) (hnd : nd.metadata.evaluation_bitmask < 2 ^ 30) :
    BitmasksOK (replaceDoc st mid nd) := by
  intro q hq
  rcases mem_replaceDoc hq with h | h
  · exact hok q h
  · rw [h]
    exact hnd

lemma bitmasksOK_faissDelete {st st₁ : FaissState} {ids : List String}
    (h : faissDelete st ids = some st₁) (hok : BitmasksOK st) : BitmasksOK st₁ := by
  intro q hq
  apply hok
  unfold faissDelete at h
  split at h
  · cases h
    exact List.mem_of_mem_filter hq
  · exact absurd h (by simp)

lemma bitmasksOK_faissAdd_one (embed : String → List Int) {st : FaissState} (mid : String)
    {nd : Document} (hok : BitmasksOK st) (hnd : nd.metadata.evaluation_bitmask < 2 ^ 30) :
    BitmasksOK (faissAdd embed st [(mid, nd)]) := by
  intro q hq
  rcases mem_foldl_dictInsert _ _ hq with h | h
  · exact hok q h
  · have : q = (mid, nd) := by simpa using h
    rw [this]
    exact hnd

lemma bitmasksOK_ai_update (embed : String → List Int) (st : FaissState) (mid : String)
    (c : Option String) (ei : Option (List Int)) (rs : Option String) (hok : BitmasksOK st) :
    BitmasksOK (ai_update_document embed st mid c ei rs).2 := by
  unfold ai_update_document
  split
  · exact hok
  · rename_i doc hl
    have hdocmem : (mid, doc) ∈ st.docstore := dlookup_mem hl
    have hmd2 : (aiPatchRec (aiPatchEval doc.metadata ei) rs).evaluation_bitmask < 2 ^ 30 := by
      rw [aiPatchRec_bitmask]
      exact aiPatchEval_bitmask_lt ei (hok _ hdocmem)
    split
    · split
      · split
        · rename_i st₁ hdel
          exact bitmasksOK_faissAdd_one embed mid (bitmasksOK_faissDelete hdel hok) hmd2
        · exact hok
      · exact bitmasksOK_replaceDoc hok hmd2
    · exact bitmasksOK_replaceDoc hok hmd2

/-- Claim C5: `indices_to_bitmask` sets bit `index - 1` exactly for the
elements lying in 1..30 and silently skips all others (so
`indices_to_bitmask([5, 31, 0, 12]) = indices_to_bitmask([5, 12])`), every
encoded bitmask is below `2^30`, and both the append path and the AI
update path preserve the store invariant that no stored
`evaluation_bitmask` has a bit beyond position 30 set. -/
theorem C5_bitmask_range_invariant :
    (∀ (xs : List Int) (j : Nat), (_convert_indices_to_bitmask xs).testBit j = true
        ↔ ∃ i ∈ xs, (1 ≤ i ∧ i ≤ 30) ∧ (i - 1).toNat = j)
    ∧ _convert_indices_to_bitmask [5, 31, 0, 12] = _convert_indices_to_bitmask [5, 12]
    ∧ (∀ xs : List Int, _convert_indices_to_bitmask xs < 2 ^ 30)
    ∧ (∀ (embed : String → List Int) (st : FaissState) (sql : List OrmSession)
        (docs : List DocumentInput) (ids : List String) (now : String),
        BitmasksOK st → BitmasksOK (add_faiss_documents embed st sql docs ids now).2.1)
    ∧ (∀ (embed : String → List Int) (st : FaissState) (mid : String) (c : Option String)
        (ei : Option (List Int)) (rs : Option String),
        BitmasksOK st → BitmasksOK (ai_update_document embed st mid c ei rs).2) :=
  ⟨encode_testBit, by decide, encode_lt_two_pow, bitmasksOK_add, bitmasksOK_ai_update⟩

theorem C5_bitmask_range_invariant_witness :
    BitmasksOK ⟨[], []⟩
    ∧ BitmasksOK (add_faiss_documents (fun _ => []) ⟨[], []⟩ []
        [⟨"hello", 1, 7, "user", none, some [2, 40], none⟩] ["m1"] "t0").2.1 :=
  ⟨by decide, C5_bitmask_range_invariant.2.2.2.1 (fun _ => []) ⟨[], []⟩ []
    [⟨"hello", 1, 7, "user", none, some [2, 40], none⟩] ["m1"] "t0" (by decide)⟩

lemma dlookup_any {α : Type} {l : List (String × α)} {k : String} {v : α}
    (h : dlookup l k = some v) : l.any (fun p => p.1 == k) = true := by
  induction l with
  | nil => exact absurd h (by simp [dlookup])
  | cons p rest ih =>
    rw [dlookup] at h
    rw [List.any_cons]
    by_cases hp : p.1 == k
    · simp [hp]
    · rw [if_neg hp] at h
      simp [ih h]

lemma dlookup_none_of_any_false {α : Type} {l : List (String × α)} {k : String}
    (h : l.any (fun p => p.1 == k) = false) : dlookup l k = none := by
  induction l with
  | nil => rfl
  | cons p rest ih =>
    rw [List.any_cons] at h
    by_cases hp : p.1 == k
    · rw [hp] at h
      exact absurd h (by simp)
    · have hf : (p.1 == k) = false := by revert hp; cases (p.1 == k) <;> simp
      rw [hf, Bool.false_or] at h
      rw [dlookup, if_neg hp]
      exact ih h

lemma any_false_of_dlookup_none {α : Type} {l : List (String × α)} {k : String}
    (h : dlookup l k = none) : l.any (fun p => p.1 == k) = false := by
  induction l with
  | nil => rfl
  | cons p rest ih =>
    rw [dlookup] at h
    by_cases hp : p.1 == k
    · rw [if_pos hp] at h
      exact absurd h (by simp)
    · rw [if_neg hp] at h
      have hf : (p.1 == k) = false := by revert hp; cases (p.1 == k) <;> simp
      rw [List.any_cons, hf, Bool.false_or]
      exact ih h

lemma filter_contains_singleton {α : Type} (l : List (String × α)) (id : String) :
    l.filter (fun p => !([id].contains p.1)) = l.filter (fun p => !(p.1 == id)) := by
  apply List.filter_congr
  intro p _
  by_cases h : p.1 = id <;> simp [List.contains_cons, h]

lemma dlookup_filter_out_self {α : Type} (l : List (String × α)) (id : String) :
    dlookup (l.filter (fun p => !(p.1 == id))) id = none := by
  induction l with
  | nil => rfl
  | cons p rest ih =>
    rw [List.filter_cons]
    by_cases hp : p.1 == id
    · rw [show (!(p.1 == id)) = false by rw [hp]; rfl, if_neg (by simp)]
      exact ih
    · have hf : (p.1 == id) = false := by revert hp; cases (p.1 == id) <;> simp
      rw [show (!(p.1 == id)) = true by rw [hf]; rfl, if_pos rfl, dlookup, if_neg hp]
      exact ih

lemma dlookup_filter_out_ne {α : Type} (l : List (String × α)) (id j : String) (h : ¬(j = id)) :
    dlookup (l.filter (fun p => !(p.1 == id))) j = dlookup l j := by
  induction l with
  | nil => rfl
  | cons p rest ih =>
    rw [List.filter_cons]
    by_cases hp : p.1 == id
    · have hpid : p.1 = id := by simpa using hp
      rw [show (!(p.1 == id)) = false by rw [hp]; rfl, if_neg (by simp)]
      rw [dlookup, if_neg (by rw [hpid]; simpa using fun he => h he.symm)]
      exact ih
    · have hf : (p.1 == id) = false := by revert hp; cases (p.1 == id) <;> simp
      rw [show (!(p.1 == id)) = true by rw [hf]; rfl, if_pos rfl, dlookup, dlookup]
      by_cases hj : p.1 == j
      · rw [if_pos hj, if_pos hj]
      · rw [if_neg hj, if_neg hj]
        exact ih

lemma any_filter_out_self {α : Type} (l : List (String × α)) (id : String) :
    (l.filter (fun p => !(p.1 == id))).any (fun p => p.1 == id) = false :=
  any_false_of_dlookup_none (dlookup_filter_out_self l id)

lemma dlookup_append_single_ne {α : Type} (l : List (String × α)) (id j : String) (v : α)
    (h : ¬(j = id)) : dlookup (l ++ [(id, v)]) j = dlookup l j := by
  induction l with
  | nil =>
    show dlookup [(id, v)] j = none
    rw [dlookup, if_neg (by simp; exact fun he => h he.symm)]
    rfl
  | cons p rest ih =>
    rw [List.cons_append, dlookup, dlookup]
    by_cases hj : p.1 == j
    · rw [if_pos hj, if_pos hj]
    · rw [if_neg hj, if_neg hj]
      exact ih

lemma dlookup_append_single_self {α : Type} (l : List (String × α)) (id : String) (v : α)
    (h : dlookup l id = none) : dlookup (l ++ [(id, v)]) id = some v := by
  induction l with
  | nil => simp [dlookup]
  | cons p rest ih =>
    rw [dlookup] at h
    by_cases hp : p.1 == id
    · rw [if_pos hp] at h
      exact absurd h (by simp)
    · rw [if_neg hp] at h
      rw [List.cons_append, dlookup, if_neg hp]
      exact ih h

lemma dictInsert_of_any_false {α : Type} (l : List (String × α)) (k : String) (v : α)
    (h : l.any (fun p => p.1 == k) = false) : dictInsert l k v = l ++ [(k, v)] := by
  unfold dictInsert
  rw [h]
  rfl

lemma faissDelete_found (st : FaissState) (mid : String)
    (hany : st.docstore.any (fun p => p.1 == mid) = true) :
    faissDelete st [mid] =
      some { docstore := st.docstore.filter (fun p => !(p.1 == mid)),
             index := st.index.filter (fun p => !(p.1 == mid)) } := by
  unfold faissDelete
  rw [List.all_cons, List.all_nil, hany, Bool.and_true, if_pos rfl,
    filter_contains_singleton, filter_contains_singleton]

lemma faissDelete_missing (st : FaissState) (mid : String)
    (hany : st.docstore.any (fun p => p.1 == mid) = false) :
    faissDelete st [mid] = none := by
  unfold faissDelete
  rw [List.all_cons, List.all_nil, hany]
  rfl

/-- The result of `update_faiss_document` on a present id, written out:
delete the old vector and document, re-embed, re-insert under the same id
with the original metadata. -/
lemma update_found_eq (embed : String → List Int) (st : FaissState) (mid c : String)
    (d : Document) (h : dlookup st.docstore mid = some d) :
    update_faiss_document embed st mid c =
      (true,
        { docstore := st.docstore.filter (fun p => !(p.1 == mid))
            ++ [(mid, { page_content := c, metadata := d.metadata })],
          index := st.index.filter (fun p => !(p.1 == mid)) ++ [(mid, embed c)] }) := by
  unfold update_faiss_document
  rw [h, faissDelete_found st mid (dlookup_any h)]
  show (true, faissAdd embed _ _) = _
  unfold faissAdd
  rw [List.foldl_cons, List.foldl_nil, List.map_cons, List.map_nil]
  rw [dictInsert_of_any_false _ _ _ (any_filter_out_self st.docstore mid)]

lemma update_not_found (embed : String → List Int) (st : FaissState) (mid c : String)
    (h : dlookup st.docstore mid = none) :
    update_faiss_document embed st mid c = (false, st) := by
  unfold update_faiss_document
  rw [h]

/-- Claim C6: updating or deleting a message id that is absent from the
document store returns `false` without mutating the store, and in
particular `delete(id)` followed by `update_content(id, ...)` returns
`false`. -/
theorem C6_not_found_returns_false (embed : String → List Int) (st : FaissState)
    (message_id c status : String) (habs : dlookup st.docstore message_id = none) :
    update_faiss_document embed st message_id c = (false, st)
    ∧ update_recommendation_status st message_id status = (false, st)
    ∧ delete_faiss_document st message_id = (false, st)
    ∧ (∀ (st₂ : FaissState) (id₂ c₂ : String),
        update_faiss_document embed (delete_faiss_document st₂ id₂).2 id₂ c₂
          = (false, (delete_faiss_document st₂ id₂).2)) := by
  refine ⟨update_not_found embed st message_id c habs, ?_, ?_, ?_⟩
  · unfold update_recommendation_status
    rw [habs]
  · unfold delete_faiss_document
    rw [faissDelete_missing st message_id (any_false_of_dlookup_none habs)]
  · intro st₂ id₂ c₂
    apply update_not_found
    unfold delete_faiss_document
    cases hany : st₂.docstore.any (fun p => p.1 == id₂) with
    | true =>
      rw [faissDelete_found st₂ id₂ hany]
      exact dlookup_filter_out_self st₂.docstore id₂
    | false =>
      rw [faissDelete_missing st₂ id₂ hany]
      exact dlookup_none_of_any_false hany

theorem C6_not_found_returns_false_witness :
    dlookup exState.docstore "m9" = none
    ∧ update_faiss_document exEmbed exState "m9" "hi" = (false, exState)
    ∧ delete_faiss_document exState "m9" = (false, exState)
    ∧ update_faiss_document exEmbed (delete_faiss_document exState "m1").2 "m1" "hi"
        = (false, (delete_faiss_document exState "m1").2) :=
  ⟨by decide,
   (C6_not_found_returns_false exEmbed exState "m9" "hi" "like" (by decide)).1,
   (C6_not_found_returns_false exEmbed exState "m9" "hi" "like" (by decide)).2.2.1,
   (C6_not_found_returns_false exEmbed exState "m9" "hi" "like" (by decide)).2.2.2
     exState "m1" "hi"⟩

/-- Claim C8: updating the content of a present message id succeeds, stores
the new content under the same id with a freshly computed embedding while
keeping the metadata record (session, user, role, time, bitmask,
recommendation, target) identical, and leaves every other message and
vector unchanged. -/
theorem C8_update_content_frame (embed : String → List Int) (st : FaissState)
    (message_id c : String) (d : Document)
    (hfound : dlookup st.docstore message_id = some d) :
    (update_faiss_document embed st message_id c).1 = true
    ∧ dlookup (update_faiss_document embed st message_id c).2.docstore message_id
        = some { page_content := c, metadata := d.metadata }
    ∧ (∀ j, ¬(j = message_id) →
        dlookup (update_faiss_document embed st message_id c).2.docstore j
          = dlookup st.docstore j)
    ∧ dlookup (update_faiss_document embed st message_id c).2.index message_id
        = some (embed c)
    ∧ (∀ j, ¬(j = message_id) →
        dlookup (update_faiss_document embed st message_id c).2.index j
          = dlookup st.index j) := by
  rw [update_found_eq embed st message_id c d hfound]
  refine ⟨rfl, ?_, ?_, ?_, ?_⟩
  · exact dlookup_append_single_self _ _ _ (dlookup_filter_out_self st.docstore message_id)
  · intro j hj
    rw [dlookup_append_single_ne _ _ _ _ hj, dlookup_filter_out_ne _ _ _ hj]
  · exact dlookup_append_single_self _ _ _ (dlookup_filter_out_self st.index message_id)
  · intro j hj
    rw [dlookup_append_single_ne _ _ _ _ hj, dlookup_filter_out_ne _ _ _ hj]

theorem C8_update_content_frame_witness :
    dlookup exState.docstore "m1" = some ⟨"old", ⟨1, 7, "user", "t0", 0, none, none⟩⟩
    ∧ (update_faiss_document exEmbed exState "m1" "brand new").1 = true
    ∧ dlookup (update_faiss_document exEmbed exState "m1" "brand new").2.docstore "m1"
        = some ⟨"brand new", ⟨1, 7, "user", "t0", 0, none, none⟩⟩
    ∧ dlookup (update_faiss_document exEmbed exState "m1" "brand new").2.docstore "m2"
        = dlookup exState.docstore "m2"
    ∧ dlookup (update_faiss_document exEmbed exState "m1" "brand new").2.index "m1"
        = some (exEmbed "brand new") :=
  ⟨by decide,
   (C8_update_content_frame exEmbed exState "m1" "brand new"
     ⟨"old", ⟨1, 7, "user", "t0", 0, none, none⟩⟩ (by decide)).1,
   (C8_update_content_frame exEmbed exState "m1" "brand new"
     ⟨"old", ⟨1, 7, "user", "t0", 0, none, none⟩⟩ (by decide)).2.1,
   (C8_update_content_frame exEmbed exState "m1" "brand new"
     ⟨"old", ⟨1, 7, "user", "t0", 0, none, none⟩⟩ (by decide)).2.2.1 "m2" (by decide),
   (C8_update_content_frame exEmbed exState "m1" "brand new"
     ⟨"old", ⟨1, 7, "user", "t0", 0, none, none⟩⟩ (by decide)).2.2.2.1⟩

lemma searchFindId_spec {ds : List (String × Document)} {d : Document} {seen : List String}
    {i : String} (h : searchFindId ds d seen = some i) :
    ∃ sd, (i, sd) ∈ ds ∧ sd.page_content = d.page_content ∧ sd.metadata = d.metadata
      ∧ ¬(i ∈ seen) := by
  unfold searchFindId at h
  cases hf : ds.find? (fun p =>
      p.2.page_content == d.page_content && p.2.metadata == d.metadata
        && !(seen.contains p.1)) with
  | none => rw [hf] at h; exact absurd h (by simp)
  | some p =>
    rw [hf] at h
    have hi : p.1 = i := by simpa using h
    have hpred := List.find?_some hf
    rw [Bool.and_eq_true, Bool.and_eq_true] at hpred
    obtain ⟨⟨hpc, hmd⟩, hseen⟩ := hpred
    refine ⟨p.2, ?_, by simpa using hpc, by simpa using hmd, ?_⟩
    · rw [← hi]
      exact List.mem_of_find?_eq_some hf
    · rw [← hi]
      intro hmem
      rw [Bool.not_eq_true', List.contains_eq_any_beq] at hseen
      have : seen.any (fun x => p.1 == x) = true :=
        List.any_eq_true.2 ⟨p.1, hmem, by simp⟩
      rw [this] at hseen
      exact absurd hseen (by simp)

lemma searchStep_cases (ds : List (String × Document)) (sid uid : Int) (d : Document)
    (score : Int) (results : List SessionSearchResult) (seen : List String) :
    searchStep ds sid uid d score results seen = (results, seen)
    ∨ ∃ i, searchFindId ds d seen = some i
        ∧ d.metadata.session_id = sid ∧ d.metadata.user_id = uid
        ∧ searchStep ds sid uid d score results seen
            = (results ++ [mkSearchResult i d score], seen ++ [i]) := by
  unfold searchStep
  by_cases hmd : (d.metadata.session_id == sid && d.metadata.user_id == uid) = true
  · rw [if_pos hmd]
    rw [Bool.and_eq_true] at hmd
    cases hfi : searchFindId ds d seen with
    | none => exact Or.inl rfl
    | some i =>
      exact Or.inr ⟨i, rfl, by simpa using hmd.1, by simpa using hmd.2, rfl⟩
  · rw [if_neg hmd]
    exact Or.inl rfl

/-- The per-result property of the candidate loop: every produced result
comes from a candidate that matched the requested session and user, carries
that candidate's content, score and decoded bitmask, and names a stored
document with the same content and metadata. -/
def SearchResultOK (ds : List (String × Document)) (sid uid : Int)
    (cands : List (Document × Int)) (r : SessionSearchResult) : Prop :=
  ∃ d score, (d, score) ∈ cands
    ∧ d.metadata.session_id = sid ∧ d.metadata.user_id = uid
    ∧ r = mkSearchResult r.message_id d score
    ∧ ∃ sd, (r.message_id, sd) ∈ ds ∧ sd.page_content = d.page_content
        ∧ sd.metadata = d.metadata

lemma searchGo_mem {ds : List (String × Document)} {sid uid : Int} {k : Nat}
    (full : List (Document × Int)) :
    ∀ (cands : List (Document × Int)) (results : List SessionSearchResult)
      (seen : List String) (r : SessionSearchResult),
      (∀ c ∈ cands, c ∈ full) →
      r ∈ searchGo ds sid uid k cands results seen →
      r ∈ results ∨ SearchResultOK ds sid uid full r := by
  intro cands
  induction cands with
  | nil =>
    intro results seen r _ hr
    exact Or.inl hr
  | cons c rest ih =>
    intro results seen r hsub hr
    obtain ⟨d, score⟩ := c
    rw [searchGo] at hr
    rcases searchStep_cases ds sid uid d score results seen with hstep | ⟨i, hfi, hs1, hs2, hstep⟩
    · rw [hstep] at hr
      by_cases hk : k ≤ results.length
      · rw [if_pos hk] at hr
        exact Or.inl hr
      · rw [if_neg hk] at hr
        exact ih results seen r (fun c hc => hsub c (List.mem_cons_of_mem _ hc)) hr
    · rw [hstep] at hr
      have hnew : ∀ x, x ∈ results ++ [mkSearchResult i d score] →
          x ∈ results ∨ SearchResultOK ds sid uid full x := by
        intro x hx
        rcases List.mem_append.1 hx with hx | hx
        · exact Or.inl hx
        · have hxe : x = mkSearchResult i d score := by simpa using hx
          obtain ⟨sd, hsd, hsdc, hsdm, _⟩ := searchFindId_spec hfi
          refine Or.inr ⟨d, score, hsub (d, score) (List.mem_cons_self _ _), hs1, hs2, ?_, ?_⟩
          · rw [hxe]
            rfl
          · refine ⟨sd, ?_, hsdc, hsdm⟩
            rw [hxe]
            exact hsd
      by_cases hk : k ≤ (results ++ [mkSearchResult i d score]).length
      · rw [if_pos hk] at hr
        exact hnew r hr
      · rw [if_neg hk] at hr
        rcases ih _ _ r (fun c hc => hsub c (List.mem_cons_of_mem _ hc)) hr with h | h
        · exact hnew r h
        · exact Or.inr h

/-- Claim C2: a session-scoped similarity search only ever returns messages
stored with exactly the requested session id and user id, and returns at
most `k` of them, whatever candidates the vector index produced. -/
theorem C2_search_session_scoping (f : String → Nat → List (Document × Int))
    (st : FaissState) (session_id user_id : Int) (query : String) (k : Nat)
    (r : SessionSearchResult)
    (hr : r ∈ search_faiss_session f st session_id user_id query k) :
    (∃ sd, (r.message_id, sd) ∈ st.docstore
      ∧ sd.metadata.session_id = session_id ∧ sd.metadata.user_id = user_id)
    ∧ (search_faiss_session f st session_id user_id query k).length ≤ k := by
  constructor
  · have hr' : r ∈ searchGo st.docstore session_id user_id k
        (f query (max (k * 5) 20)) [] [] := by
      unfold search_faiss_session at hr
      exact List.mem_of_mem_take hr
    rcases searchGo_mem (f query (max (k * 5) 20)) _ [] [] r (fun c hc => hc) hr' with h | h
    · exact absurd h (List.not_mem_nil r)
    · obtain ⟨d, score, _, hs1, hs2, _, sd, hsd, _, hsdm⟩ := h
      exact ⟨sd, hsd, by rw [hsdm, hs1], by rw [hsdm, hs2]⟩
  · unfold search_faiss_session
    exact List.length_take_le k _

lemma searchGo_distinct_ids {ds : List (String × Document)} {sid uid : Int} {k : Nat} :
    ∀ (cands : List (Document × Int)) (results : List SessionSearchResult) (seen : List String),
      (∀ r ∈ results, r.message_id ∈ seen) →
      results.Pairwise (fun a b => ¬(a.message_id = b.message_id)) →
      (searchGo ds sid uid k cands results seen).Pairwise
        (fun a b => ¬(a.message_id = b.message_id)) := by
  intro cands
  induction cands with
  | nil =>
    intro results seen _ hp
    exact hp
  | cons c rest ih =>
    intro results seen hseen hp
    obtain ⟨d, score⟩ := c
    rw [searchGo]
    rcases searchStep_cases ds sid uid d score results seen with hstep | ⟨i, hfi, _, _, hstep⟩
    · rw [hstep]
      by_cases hk : k ≤ results.length
      · rw [if_pos hk]
        exact hp
      · rw [if_neg hk]
        exact ih results seen hseen hp
    · rw [hstep]
      obtain ⟨sd, _, _, _, hiseen⟩ := searchFindId_spec hfi
      have hp' : (results ++ [mkSearchResult i d score]).Pairwise
          (fun a b => ¬(a.message_id = b.message_id)) := by
        rw [List.pairwise_append]
        refine ⟨hp, List.pairwise_singleton _ _, ?_⟩
        intro a ha b hb
        have hb' : b = mkSearchResult i d score := by simpa using hb
        rw [hb']
        intro he
        apply hiseen
        rw [show (mkSearchResult i d score).message_id = i from rfl] at he
        rw [← he]
        exact hseen a ha
      have hseen' : ∀ r ∈ results ++ [mkSearchResult i d score], r.message_id ∈ seen ++ [i] := by
        intro r hrm
        rcases List.mem_append.1 hrm with h | h
        · exact List.mem_append.2 (Or.inl (hseen r h))
        · have : r = mkSearchResult i d score := by simpa using h
          rw [this]
          exact List.mem_append.2 (Or.inr (by simp [mkSearchResult]))
      by_cases hk : k ≤ (results ++ [mkSearchResult i d score]).length
      · rw [if_pos hk]
        exact hp'
      · rw [if_neg hk]
        exact ih _ _ hseen' hp'

lemma searchGo_sorted_scores {ds : List (String × Document)} {sid uid : Int} {k : Nat} :
    ∀ (cands : List (Document × Int)) (results : List SessionSearchResult) (seen : List String),
      cands.Pairwise (fun a b => a.2 ≤ b.2) →
      results.Pairwise (fun a b => a.score ≤ b.score) →
      (∀ r ∈ results, ∀ c ∈ cands, r.score ≤ c.2) →
      (searchGo ds sid uid k cands results seen).Pairwise (fun a b => a.score ≤ b.score) := by
  intro cands
  induction cands with
  | nil =>
    intro results seen _ hp _
    exact hp
  | cons c rest ih =>
    intro results seen hcand hp hcross
    obtain ⟨d, score⟩ := c
    rw [searchGo]
    rw [List.pairwise_cons] at hcand
    rcases searchStep_cases ds sid uid d score results seen with hstep | ⟨i, hfi, _, _, hstep⟩
    · rw [hstep]
      by_cases hk : k ≤ results.length
      · rw [if_pos hk]
        exact hp
      · rw [if_neg hk]
        exact ih results seen hcand.2 hp
          (fun r hrm c hc => hcross r hrm c (List.mem_cons_of_mem _ hc))
    · rw [hstep]
      have hp' : (results ++ [mkSearchResult i d score]).Pairwise
          (fun a b => a.score ≤ b.score) := by
        rw [List.pairwise_append]
        refine ⟨hp, List.pairwise_singleton _ _, ?_⟩
        intro a ha b hb
        have hb' : b = mkSearchResult i d score := by simpa using hb
        rw [hb', show (mkSearchResult i d score).score = score from rfl]
        exact hcross a ha (d, score) (List.mem_cons_self _ _)
      have hcross' : ∀ r ∈ results ++ [mkSearchResult i d score], ∀ c ∈ rest, r.score ≤ c.2 := by
        intro r hrm c hc
        rcases List.mem_append.1 hrm with h | h
        · exact hcross r h c (List.mem_cons_of_mem _ hc)
        · have : r = mkSearchResult i d score := by simpa using h
          rw [this, show (mkSearchResult i d score).score = score from rfl]
          exact hcand.1 c hc
      by_cases hk : k ≤ (results ++ [mkSearchResult i d score]).length
      · rw [if_pos hk]
        exact hp'
      · rw [if_neg hk]
        exact ih _ _ hcand.2 hp' hcross'

/-- Claim C4: the session search consumes exactly the `max(k*5, 20)`
nearest candidates from the vector index, filters them to the requested
session and user, deduplicates by message id, truncates to at most `k`
while preserving the candidates' ascending-distance order, and each hit
carries the recovered message id, the candidate's content, the decoded
bitmask indices, and the raw L2 distance as the score. -/
theorem C4_search_overfetch_filter_dedup_order (f : String → Nat → List (Document × Int))
    (st : FaissState) (session_id user_id : Int) (query : String) (k : Nat)
    (g : String → Nat → List (Document × Int))
    (hsorted : (f query (max (k * 5) 20)).Pairwise (fun a b => a.2 ≤ b.2))
    (hg : g query (max (k * 5) 20) = f query (max (k * 5) 20)) :
    search_faiss_session g st session_id user_id query k
      = search_faiss_session f st session_id user_id query k
    ∧ (search_faiss_session f st session_id user_id query k).length ≤ k
    ∧ (search_faiss_session f st session_id user_id query k).Pairwise
        (fun a b => ¬(a.message_id = b.message_id))
    ∧ (search_faiss_session f st session_id user_id query k).Pairwise
        (fun a b => a.score ≤ b.score)
    ∧ ∀ r ∈ search_faiss_session f st session_id user_id query k,
        ∃ d score, (d, score) ∈ f query (max (k * 5) 20)
          ∧ d.metadata.session_id = session_id ∧ d.metadata.user_id = user_id
          ∧ r.page_content = d.page_content ∧ r.score = score
          ∧ r.evaluation_indices = (if d.metadata.evaluation_bitmask == 0 then none
              else some (_convert_bitmask_to_indices d.metadata.evaluation_bitmask))
          ∧ ∃ sd, (r.message_id, sd) ∈ st.docstore
              ∧ sd.page_content = d.page_content ∧ sd.metadata = d.metadata := by
  refine ⟨?_, ?_, ?_, ?_, ?_⟩
  · unfold search_faiss_session
    rw [hg]
  · unfold search_faiss_session
    exact List.length_take_le k _
  · unfold search_faiss_session
    exact List.Pairwise.sublist (List.take_sublist _ _)
      (searchGo_distinct_ids _ [] [] (fun r hr => absurd hr (List.not_mem_nil r))
        List.Pairwise.nil)
  · unfold search_faiss_session
    exact List.Pairwise.sublist (List.take_sublist _ _)
      (searchGo_sorted_scores _ [] [] hsorted List.Pairwise.nil
        (fun r hr => absurd hr (List.not_mem_nil r)))
  · intro r hr
    have hr' : r ∈ searchGo st.docstore session_id user_id k
        (f query (max (k * 5) 20)) [] [] := by
      unfold search_faiss_session at hr
      exact List.mem_of_mem_take hr
    rcases searchGo_mem (f query (max (k * 5) 20)) _ [] [] r (fun c hc => hc) hr' with h | h
    · exact absurd h (List.not_mem_nil r)
    · obtain ⟨d, score, hmem, h1, h2, heq, sd, hsd, hc, hm⟩ := h
      refine ⟨d, score, hmem, h1, h2, ?_, ?_, ?_, sd, hsd, hc, hm⟩
      · exact congrArg SessionSearchResult.page_content heq
      · exact congrArg SessionSearchResult.score heq
      · exact congrArg SessionSearchResult.evaluation_indices heq

theorem C4_search_overfetch_filter_dedup_order_witness :
    (exSearchCands "query" (max (2 * 5) 20)).Pairwise (fun a b => a.2 ≤ b.2)
    ∧ (search_faiss_session exSearchCands exState 1 7 "query" 2).Pairwise
        (fun a b => a.score ≤ b.score)
    ∧ (search_faiss_session exSearchCands exState 1 7 "query" 2).Pairwise
        (fun a b => ¬(a.message_id = b.message_id))
    ∧ (search_faiss_session exSearchCands exState 1 7 "query" 2).length ≤ 2 :=
  ⟨by decide,
   (C4_search_overfetch_filter_dedup_order exSearchCands exState 1 7 "query" 2
     exSearchCands (by decide) rfl).2.2.2.1,
   (C4_search_overfetch_filter_dedup_order exSearchCands exState 1 7 "query" 2
     exSearchCands (by decide) rfl).2.2.1,
   (C4_search_overfetch_filter_dedup_order exSearchCands exState 1 7 "query" 2
     exSearchCands (by decide) rfl).2.1⟩

theorem C2_search_session_scoping_witness :
    (mkSearchResult "m1" ⟨"old", ⟨1, 7, "user", "t0", 0, none, none⟩⟩ 3)
        ∈ search_faiss_session exSearchCands exState 1 7 "query" 2
    ∧ (∃ sd, (("m1" : String), sd) ∈ exState.docstore
        ∧ sd.metadata.session_id = 1 ∧ sd.metadata.user_id = 7)
    ∧ (search_faiss_session exSearchCands exState 1 7 "query" 2).length ≤ 2 :=
  ⟨by decide,
   (C2_search_session_scoping exSearchCands exState 1 7 "query" 2
     (mkSearchResult "m1" ⟨"old", ⟨1, 7, "user", "t0", 0, none, none⟩⟩ 3) (by decide)).1,
   (C2_search_session_scoping exSearchCands exState 1 7 "query" 2
     (mkSearchResult "m1" ⟨"old", ⟨1, 7, "user", "t0", 0, none, none⟩⟩ 3) (by decide)).2⟩

lemma filterMap_if_eq_map_filter {α β : Type} (c : α → Bool) (g : α → β) (l : List α) :
    l.filterMap (fun x => if c x then some (g x) else none) = (l.filter c).map g := by
  induction l with
  | nil => rfl
  | cons x t ih =>
    rw [List.filterMap_cons, List.filter_cons]
    by_cases h : c x
    · rw [if_pos h, if_pos h, List.map_cons, ih]
    · rw [if_neg h, if_neg h, ih]

/-- Claim C3: the conversation history consists exactly of the stored
messages whose metadata matches both the requested session id and user id
(rendered with the decoded bitmask), is ordered by the stored timestamp
ascending, and `total_messages` is the number of returned messages. -/
theorem C3_history_sorted_complete (st : FaissState) (sql : List OrmSession)
    (session_id user_id : Int) :
    (get_conversation_history_by_session st sql session_id user_id).messages.Pairwise
        (fun a b => a.timestamp ≤ b.timestamp)
    ∧ (get_conversation_history_by_session st sql session_id user_id).messages.Perm
        ((st.docstore.filter (fun p => historyMatch session_id user_id p.2)).map
          (fun p => renderTuple (p.2.metadata.time, p.1, p.2)))
    ∧ (get_conversation_history_by_session st sql session_id user_id).total_messages
        = (get_conversation_history_by_session st sql session_id user_id).messages.length := by
  refine ⟨?_, ?_, rfl⟩
  · show ((List.insertionSort histLe (st.docstore.filterMap (fun p =>
        if historyMatch session_id user_id p.2
        then some (p.2.metadata.time, p.1, p.2) else none))).map renderTuple).Pairwise
        (fun a b => a.timestamp ≤ b.timestamp)
    exact List.Pairwise.map renderTuple (fun a b h => h)
      (List.sorted_insertionSort histLe _)
  · show ((List.insertionSort histLe (st.docstore.filterMap (fun p =>
        if historyMatch session_id user_id p.2
        then some (p.2.metadata.time, p.1, p.2) else none))).map renderTuple).Perm _
    refine ((List.perm_insertionSort histLe _).map renderTuple).trans ?_
    rw [filterMap_if_eq_map_filter (fun p => historyMatch session_id user_id p.2)
      (fun p => (p.2.metadata.time, p.1, p.2)) st.docstore, List.map_map]
    exact List.Perm.refl _

lemma base64EncodeList_ne_nil {bytes : List Nat} (h : ¬(bytes = [])) :
    ¬(base64EncodeList bytes = []) := by
  rcases bytes with _ | ⟨b0, _ | ⟨b1, _ | ⟨b2, rest⟩⟩⟩
  · exact absurd rfl h
  · intro hc
    exact absurd hc (by simp [base64EncodeList])
  · intro hc
    exact absurd hc (by simp [base64EncodeList])
  · intro hc
    exact absurd hc (by simp [base64EncodeList])

lemma base64Encode_ne_empty {bytes : List Nat} (h : ¬(bytes = [])) :
    ¬(base64Encode bytes = "") := by
  intro he
  apply base64EncodeList_ne_nil h
  have hd := congrArg String.data he
  have hnil : String.data "" = [] := rfl
  rw [hnil] at hd
  exact hd

/-- Claim C7: with a configured non-empty shared secret, the AI update
endpoint accepts a request if and only if the signature header equals the
base64-encoded HMAC-SHA256 digest (keyed by the shared secret) of the
canonical serialization of the payload, and a failed signature check is
rejected with 403 before any mutation of the store. -/
theorem C7_hmac_gate (hmacSha256 : String → String → List Nat)
    (serialize : AIMessageUpdateRequest → String) (embed : String → List Int)
    (st : FaissState) (request : AIMessageUpdateRequest) (sig sk : String)
    (hsk : ¬(sk = ""))
    (hlen : (hmacSha256 sk (serialize request)).length = 32) :
    ((ai_update_message hmacSha256 serialize (some sk) embed st request sig).1
        ≠ HttpOutcome.error 403
      ↔ sig = base64Encode (hmacSha256 sk (serialize request)))
    ∧ (¬(sig = base64Encode (hmacSha256 sk (serialize request))) →
        ai_update_message hmacSha256 serialize (some sk) embed st request sig
          = (HttpOutcome.error 403, st)) := by
  have hskb : (sk == "") = false := by simpa using hsk
  have hbytes : ¬(hmacSha256 sk (serialize request) = []) := by
    intro hc
    rw [hc] at hlen
    simp at hlen
  have hexp : ¬(base64Encode (hmacSha256 sk (serialize request)) = "") :=
    base64Encode_ne_empty hbytes
  have hverify : verify_hmac_signature hmacSha256 (some sk) (serialize request) sig none
      = (if sig == "" then false
         else (base64Encode (hmacSha256 sk (serialize request)) == sig)) := by
    unfold verify_hmac_signature generate_hmac pickSecret
    simp [hskb]
  have hrun : ai_update_message hmacSha256 serialize (some sk) embed st request sig
      = (if !(verify_hmac_signature hmacSha256 (some sk) (serialize request) sig none) then
          (HttpOutcome.error 403, st)
        else
          (if (ai_update_document embed st request.message_id request.new_page_content
              request.new_evaluation_indices request.new_recommendation_status).1
           then (HttpOutcome.ok request.message_id,
             (ai_update_document embed st request.message_id request.new_page_content
               request.new_evaluation_indices request.new_recommendation_status).2)
           else (HttpOutcome.error 500,
             (ai_update_document embed st request.message_id request.new_page_content
               request.new_evaluation_indices request.new_recommendation_status).2))) := by
    unfold ai_update_message
    simp [hskb]
  by_cases hsig : sig = base64Encode (hmacSha256 sk (serialize request))
  · have hsigne : (sig == "") = false := by
      apply beq_eq_false_iff_ne.mpr
      rw [hsig]
      exact hexp
    have hvt : verify_hmac_signature hmacSha256 (some sk) (serialize request) sig none
        = true := by
      rw [hverify, hsigne]
      simp [hsig]
    constructor
    · refine ⟨fun _ => hsig, fun _ => ?_⟩
      rw [hrun, hvt]
      by_cases hai : (ai_update_document embed st request.message_id request.new_page_content
          request.new_evaluation_indices request.new_recommendation_status).1
      · simp [hai]
      · simp [hai]
    · intro hc
      exact absurd hsig hc
  · have hvf : verify_hmac_signature hmacSha256 (some sk) (serialize request) sig none
        = false := by
      rw [hverify]
      by_cases hse : sig == ""
      · rw [if_pos hse]
      · rw [if_neg hse]
        exact beq_eq_false_iff_ne.mpr (fun he => hsig he.symm)
    have h403 : ai_update_message hmacSha256 serialize (some sk) embed st request sig
        = (HttpOutcome.error 403, st) := by
      rw [hrun, hvf]
      rfl
    constructor
    · constructor
      · intro hne
        exact absurd (by rw [h403]) hne
      · intro hc
        exact absurd hc hsig
    · intro _
      exact h403

theorem C7_hmac_gate_witness :
    ¬(("s" : String) = "")
    ∧ (exHmac "s" (exSerialize exAiReq)).length = 32
    ∧ ¬(("bad" : String) = base64Encode (exHmac "s" (exSerialize exAiReq)))
    ∧ ai_update_message exHmac exSerialize (some "s") exEmbed exState exAiReq "bad"
        = (HttpOutcome.error 403, exState)
    ∧ (ai_update_message exHmac exSerialize (some "s") exEmbed exState exAiReq
        (base64Encode (exHmac "s" (exSerialize exAiReq)))).1 ≠ HttpOutcome.error 403 :=
  ⟨by decide, by decide, by decide,
   (C7_hmac_gate exHmac exSerialize exEmbed exState exAiReq "bad" "s"
     (by decide) (by decide)).2 (by decide),
   (C7_hmac_gate exHmac exSerialize exEmbed exState exAiReq
     (base64Encode (exHmac "s" (exSerialize exAiReq))) "s"
     (by decide) (by decide)).1.mpr rfl⟩

lemma scan_frozen (sql : List OrmSession) (docs : List DocumentInput)
    (acc : Option String × Option OrmSession) (h : strFalsy acc.1 = false) :
    docs.foldl (scanStep sql) acc = acc := by
  induction docs generalizing acc with
  | nil => rfl
  | cons d rest ih =>
    rw [List.foldl_cons]
    have hstep : scanStep sql acc d = acc := by
      unfold scanStep
      rw [h, Bool.and_false]
      simp
    rw [hstep]
    exact ih acc h

/-- The bookkeeping fold over a single-session batch, characterized: the
recorded content is that of the first user-role message with non-empty
content (or an empty falsy value), and the session object is recorded as
soon as any user-role message triggers the lookup while the title is still
the placeholder. -/
lemma scan_single_session (sql : List OrmSession) (sid : Int) (s : OrmSession)
    (hfind : sql.find? (fun t => t.session_id == sid) = some s) :
    ∀ (docs : List DocumentInput) (acc : Option String × Option OrmSession),
      (∀ d ∈ docs, d.session_id = sid) → strFalsy acc.1 = true →
      docs.foldl (scanStep sql) acc =
        ((match docs.find? (fun d => d.message_role == "user" && !(d.page_content == "")) with
          | some d => some d.page_content
          | none =>
            if docs.any (fun d => d.message_role == "user") then some "" else acc.1),
         if docs.any (fun d => d.message_role == "user") && (s.title == newConversationTitle)
         then some s else acc.2) := by
  intro docs
  induction docs with
  | nil =>
    intro acc _ _
    simp
  | cons d rest ih =>
    intro acc hsid hacc
    rw [List.foldl_cons]
    by_cases hrole : (d.message_role == "user") = true
    · have hdsid : d.session_id = sid := hsid d (List.mem_cons_self d rest)
      have hstep : scanStep sql acc d =
          (some d.page_content,
           if s.title == newConversationTitle then some s else acc.2) := by
        unfold scanStep
        rw [hdsid]
        simp [hrole, hacc, hfind]
      rw [hstep]
      have hsidr : ∀ x ∈ rest, x.session_id = sid :=
        fun x hx => hsid x (List.mem_cons_of_mem d hx)
      by_cases hpc : (d.page_content == "") = true
      · have hpce : d.page_content = "" := by simpa using hpc
        rw [ih (some d.page_content, if s.title == newConversationTitle then some s else acc.2)
          hsidr (by simp [strFalsy, hpc])]
        rw [List.find?_cons_of_neg _ (by simp [hrole, hpc]),
            List.any_cons, hrole, Bool.true_or]
        by_cases hph : (s.title == newConversationTitle) = true <;>
          cases hfq : rest.find?
              (fun d => d.message_role == "user" && !(d.page_content == "")) <;>
            cases hanyr : rest.any (fun d => d.message_role == "user") <;>
              simp [hph, hfq, hanyr, hpce]
      · have hpcf : (d.page_content == "") = false := by
          revert hpc
          cases (d.page_content == "") <;> simp
        rw [scan_frozen sql rest _ (by simp [strFalsy, hpcf])]
        rw [List.find?_cons_of_pos _ (by simp [hrole, hpcf]),
            List.any_cons, hrole, Bool.true_or]
        simp
    · have hrf : (d.message_role == "user") = false := by
        revert hrole
        cases (d.message_role == "user") <;> simp
      have hstep : scanStep sql acc d = acc := by
        unfold scanStep
        rw [hrf, Bool.false_and]
        simp
      rw [hstep, ih acc (fun x hx => hsid x (List.mem_cons_of_mem d hx)) hacc]
      rw [List.find?_cons_of_neg _ (by simp [hrf]), List.any_cons, hrf, Bool.false_or]

/-- The relational outcome of `add_faiss_documents` on a non-empty batch,
written through the bookkeeping fold. -/
lemma add_sql_eq (embed : String → List Int) (st : FaissState) (sql : List OrmSession)
    (docs : List DocumentInput) (ids : List String) (now : String) (hne : ¬(docs = [])) :
    (add_faiss_documents embed st sql docs ids now).2.2 =
      (match (docs.foldl (scanStep sql) (none, none)).2,
             (docs.foldl (scanStep sql) (none, none)).1 with
       | some sessionObj, some c =>
         if c == "" then sql
         else sql.map (fun t => if t.session_id == sessionObj.session_id
             then { t with title := c.take 50 } else t)
       | _, _ => sql) := by
  cases docs with
  | nil => exact absurd rfl hne
  | cons d rest =>
    simp only [add_faiss_documents, List.map_cons, List.isEmpty_cons, Bool.false_eq_true,
      if_false]

/-- Claim C9 (amended): over a batch whose messages all address one
session, if the session's title is still the placeholder and the batch
contains a user-role message with NON-EMPTY content, the title becomes the
first 50 characters of the first such message; if the title is not the
placeholder, or no user-role message has non-empty content, the relational
state is unchanged. -/
theorem C9_amended_placeholder_title (embed : String → List Int) (st : FaissState)
    (sql : List OrmSession) (docs : List DocumentInput) (ids : List String) (now : String)
    (sid : Int) (s : OrmSession)
    (hsid : ∀ d ∈ docs, d.session_id = sid)
    (hfind : sql.find? (fun t => t.session_id == sid) = some s) :
    (s.title = newConversationTitle →
      ∀ d₀, docs.find? (fun d => d.message_role == "user" && !(d.page_content == ""))
          = some d₀ →
        (add_faiss_documents embed st sql docs ids now).2.2
          = sql.map (fun t => if t.session_id == s.session_id
              then { t with title := d₀.page_content.take 50 } else t))
    ∧ (¬(s.title = newConversationTitle) →
        (add_faiss_documents embed st sql docs ids now).2.2 = sql)
    ∧ (docs.find? (fun d => d.message_role == "user" && !(d.page_content == "")) = none →
        (add_faiss_documents embed st sql docs ids now).2.2 = sql) := by
  by_cases hnil : docs = []
  · subst hnil
    refine ⟨?_, ?_, ?_⟩
    · intro _ d₀ hd₀
      exact absurd hd₀ (by simp)
    · intro _
      rfl
    · intro _
      rfl
  · have hadd := add_sql_eq embed st sql docs ids now hnil
    have hscan := scan_single_session sql sid s hfind docs (none, none) hsid rfl
    refine ⟨?_, ?_, ?_⟩
    · intro hph d₀ hd₀
      have hphb : (s.title == newConversationTitle) = true := by simp [hph]
      have hq := List.find?_some hd₀
      rw [Bool.and_eq_true] at hq
      have hany : docs.any (fun d => d.message_role == "user") = true :=
        List.any_eq_true.2 ⟨d₀, List.mem_of_find?_eq_some hd₀, hq.1⟩
      have hc : (d₀.page_content == "") = false := by
        have hq2 := hq.2
        revert hq2
        cases (d₀.page_content == "") <;> simp
      rw [hadd, hscan]
      simp [hd₀, hany, hphb, hc]
    · intro hph
      have hphb : (s.title == newConversationTitle) = false :=
        beq_eq_false_iff_ne.mpr hph
      rw [hadd, hscan]
      simp [hphb]
    · intro hfq
      rw [hadd, hscan]
      cases hany : docs.any (fun d => d.message_role == "user")
      · simp [hfq, hany]
      · by_cases hph : (s.title == newConversationTitle) = true <;> simp [hfq, hany, hph]

set_option maxRecDepth 4096 in
theorem C9_counterexample_empty_first_user_message :
    ((add_faiss_documents exEmbed exState exSqlC9 [exDocEmpty] ["m7"] "t1").2.2).map
        (fun t => t.title) = [newConversationTitle]
    ∧ ¬(newConversationTitle = exDocEmpty.page_content.take 50) := by
  constructor
  · decide
  · decide

theorem C9_amended_placeholder_title_witness :
    (∀ d ∈ [exDocHello], d.session_id = 1)
    ∧ exSqlC9.find? (fun t => t.session_id == 1) = some ⟨1, 7, newConversationTitle, []⟩
    ∧ (add_faiss_documents exEmbed exState exSqlC9 [exDocHello] ["m8"] "t2").2.2
        = exSqlC9.map (fun t => if t.session_id == 1
            then { t with title := exDocHello.page_content.take 50 } else t) :=
  ⟨by decide, by decide,
   (C9_amended_placeholder_title exEmbed exState exSqlC9 [exDocHello] ["m8"] "t2" 1
     ⟨1, 7, newConversationTitle, []⟩ (by decide) (by decide)).1 rfl exDocHello (by decide)⟩

/-- The bookkeeping fold when the first user-role message of the batch has
non-empty content: that message alone determines the recorded content and
the session lookup, and the lookup is keyed by its `session_id` only. -/
lemma scan_first_user (sql : List OrmSession) (d₀ : DocumentInput)
    (hne : ¬(d₀.page_content = "")) :
    ∀ docs : List DocumentInput,
      docs.find? (fun d => d.message_role == "user") = some d₀ →
      docs.foldl (scanStep sql) (none, none) =
        (some d₀.page_content,
         match sql.find? (fun t => t.session_id == d₀.session_id) with
         | some sessionObj =>
           if sessionObj.title == newConversationTitle then some sessionObj else none
         | none => none) := by
  intro docs
  induction docs with
  | nil =>
    intro hfirst
    exact absurd hfirst (by simp)
  | cons d rest ih =>
    intro hfirst
    by_cases hrole : (d.message_role == "user") = true
    · rw [@List.find?_cons_of_pos _ (fun d => d.message_role == "user") d rest hrole] at hfirst
      have hd : d = d₀ := Option.some_inj.1 hfirst
      subst hd
      have hpcf : (d.page_content == "") = false := beq_eq_false_iff_ne.mpr hne
      rw [List.foldl_cons]
      have hstep : scanStep sql (none, none) d =
          (some d.page_content,
           match sql.find? (fun t => t.session_id == d.session_id) with
           | some sessionObj =>
             if sessionObj.title == newConversationTitle then some sessionObj else none
           | none => none) := by
        unfold scanStep
        rw [hrole]
        cases hf : sql.find? (fun t => t.session_id == d.session_id) <;>
          simp [hf, strFalsy]
      rw [hstep, scan_frozen sql rest _ (by simp [strFalsy, hpcf])]
    · have hrf : (d.message_role == "user") = false := by
        revert hrole
        cases (d.message_role == "user") <;> simp
      rw [@List.find?_cons_of_neg _ (fun d => d.message_role == "user") d rest
        (by simp [hrf])] at hfirst
      rw [List.foldl_cons]
      have hstep : scanStep sql (none, none) d = (none, none) := by
        unfold scanStep
        rw [hrf, Bool.false_and]
        simp
      rw [hstep]
      exact ih hfirst

/-- Claim C10 (amended): when the first user-role message of a batch has
non-empty content and names a session whose title is still the placeholder,
the rename is applied to the session selected by that message's
`session_id` alone — even when the session's owning `user_id` differs from
the message's `user_id`, which is never compared. -/
theorem C10_amended_rename_ignores_owner (embed : String → List Int) (st : FaissState)
    (sql : List OrmSession) (docs : List DocumentInput) (ids : List String) (now : String)
    (d₀ : DocumentInput) (s : OrmSession)
    (hfirst : docs.find? (fun d => d.message_role == "user") = some d₀)
    (hne : ¬(d₀.page_content = ""))
    (hfind : sql.find? (fun t => t.session_id == d₀.session_id) = some s)
    (htitle : s.title = newConversationTitle)
    (howner : ¬(s.user_id = d₀.user_id)) :
    (add_faiss_documents embed st sql docs ids now).2.2
      = sql.map (fun t => if t.session_id == s.session_id
          then { t with title := d₀.page_content.take 50 } else t) := by
  have hnil : ¬(docs = []) := by
    intro h
    rw [h] at hfirst
    exact absurd hfirst (by simp)
  rw [add_sql_eq embed st sql docs ids now hnil,
      scan_first_user sql d₀ hne docs hfirst, hfind]
  have hphb : (s.title == newConversationTitle) = true := by simp [htitle]
  simp [hphb, beq_eq_false_iff_ne.mpr hne]

set_option maxRecDepth 4096 in
theorem C10_counterexample_empty_first_user_message :
    ((add_faiss_documents exEmbed exState exSqlC10 [exDocEmpty] ["m9"] "t1").2.2).map
        (fun t => t.title) = [newConversationTitle]
    ∧ ¬((⟨1, 2, newConversationTitle, []⟩ : OrmSession).user_id = exDocEmpty.user_id)
    ∧ ¬(newConversationTitle = exDocEmpty.page_content.take 50) := by
  refine ⟨?_, ?_, ?_⟩
  · decide
  · decide
  · decide

theorem C10_amended_rename_ignores_owner_witness :
    [exDocHello].find? (fun d => d.message_role == "user") = some exDocHello
    ∧ ¬(exDocHello.page_content = "")
    ∧ exSqlC10.find? (fun t => t.session_id == exDocHello.session_id)
        = some ⟨1, 2, newConversationTitle, []⟩
    ∧ ¬((⟨1, 2, newConversationTitle, []⟩ : OrmSession).user_id = exDocHello.user_id)
    ∧ (add_faiss_documents exEmbed exState exSqlC10 [exDocHello] ["m8"] "t3").2.2
        = exSqlC10.map (fun t => if t.session_id == 1
            then { t with title := exDocHello.page_content.take 50 } else t) :=
  ⟨by decide, by decide, by decide, by decide,
   C10_amended_rename_ignores_owner exEmbed exState exSqlC10 [exDocHello] ["m8"] "t3"
     exDocHello ⟨1, 2, newConversationTitle, []⟩ (by decide) (by decide) (by decide) rfl
     (by decide)⟩

end FaissService
